import Mathlib

/-!
Verification of the Solana token-metadata decoder
(`unpack_metadata_account` in `src/metadata.py`) against its
natural-language specification.

The decoder is embedded shallowly: a Python `bytes` buffer is a
`List Nat` (each element one byte value), the cursor-over-buffer loop of
the Python code becomes a consuming parser over the list (every
successful read hands the unread suffix to the next step, which is
observationally identical to the integer-index cursor of the source,
since the index only advances past bytes whose read succeeded), and the
Python exceptions become the constructors of `DecodeError`:

* `indexError`      — Python `IndexError` from `data[i]` past the end;
* `structError`     — Python `struct.error` from `struct.unpack` on a
                      slice shorter than the format requires;
* `assertionError`  — Python `AssertionError` from `assert(data[0] == 4)`;
* `unicodeDecodeError` — Python `UnicodeDecodeError` from
                      `bytes(...).decode("utf-8")` on invalid UTF-8.
-/

/-- The error classes the Python decoder can raise, see module comment. -/
inductive DecodeError where
  | indexError
  | structError
  | assertionError
  | unicodeDecodeError
deriving DecidableEq, Repr

/-- `True` for the two error classes raised by reading past the end of the
buffer (Python `IndexError` and `struct.error`), i.e. the truncation class
of the spec (`TruncatedInput` / `LengthOverflow`). -/
def DecodeError.truncClass : DecodeError → Bool
  | .indexError => true
  | .structError => true
  | _ => false

/-- Python `data[i]` followed by `i += 1`: one byte, `IndexError` when no
byte remains. -/
def readByteIx (d : List Nat) : Except DecodeError (Nat × List Nat) :=
  match d with
  | [] => .error .indexError
  | b :: r => .ok (b, r)

/-- Python `struct.unpack('<' + "B"*n, data[i:i+n])` followed by `i += n`:
exactly `n` bytes, `struct.error` when the slice is shorter than `n`. -/
def readBytes (n : Nat) (d : List Nat) : Except DecodeError (List Nat × List Nat) :=
  if d.length < n then .error .structError
  else .ok (d.take n, d.drop n)

/-- Python `struct.unpack('<I', data[i:i+4])` followed by `i += 4`:
a 4-byte little-endian unsigned integer, `struct.error` when fewer than
4 bytes remain. -/
def readU32 (d : List Nat) : Except DecodeError (Nat × List Nat) :=
  match d with
  | b0 :: b1 :: b2 :: b3 :: r =>
      .ok (b0 + 256 * b1 + 65536 * b2 + 16777216 * b3, r)
  | _ => .error .structError

/-- The value `struct.unpack('<h', bytes([b0, b1]))[0]` computes: the two
bytes as a signed 16-bit little-endian integer. -/
def unpack_h (b0 b1 : Nat) : Int :=
  if b0 + 256 * b1 < 32768 then ((b0 + 256 * b1 : Nat) : Int)
  else ((b0 + 256 * b1 : Nat) : Int) - 65536

/-- Python `struct.unpack('<h', data[i:i+2])` followed by `i += 2`:
a signed 16-bit little-endian integer, `struct.error` when fewer than
2 bytes remain. -/
def readI16 (d : List Nat) : Except DecodeError (Int × List Nat) :=
  match d with
  | b0 :: b1 :: r => .ok (unpack_h b0 b1, r)
  | _ => .error .structError

/-- ASCII codes of the base-58 alphabet
`123456789ABCDEFGHJKLMNPQRSTUVWXYZabcdefghijkmnopqrstuvwxyz`
used by the Python `base58` package. -/
def B58A : List Nat :=
  [49, 50, 51, 52, 53, 54, 55, 56, 57,
   65, 66, 67, 68, 69, 70, 71, 72, 74, 75, 76, 77, 78,
   80, 81, 82, 83, 84, 85, 86, 87, 88, 89, 90,
   97, 98, 99, 100, 101, 102, 103, 104, 105, 106, 107, 109, 110,
   111, 112, 113, 114, 115, 116, 117, 118, 119, 120, 121, 122]

/-- A byte string read as a big-endian natural number (the big-integer
conversion step of base-58 encoding). -/
def bytesToNat (l : List Nat) : Nat :=
  l.foldl (fun acc b => acc * 256 + b) 0

/-- Little-endian base-58 digits of `n`, by repeated division; the first
argument is fuel, always called with `fuel = n`, which bounds the digit
count for every `n`. -/
def b58digitsAux : Nat → Nat → List Nat
  | 0, _ => []
  | _ + 1, 0 => []
  | fuel + 1, n => n % 58 :: b58digitsAux fuel (n / 58)

/-- Little-endian base-58 digits of `n` (empty for `n = 0`). -/
def b58digits (n : Nat) : List Nat := b58digitsAux n n

/-- Python `base58.b58encode(bytes)`: one alphabet character (`'1'`) per
leading zero byte, then the base-58 digits of the value, most significant
first; result as a list of ASCII codes. -/
def b58encode (l : List Nat) : List Nat :=
  List.replicate (l.takeWhile (· == 0)).length 49
    ++ ((b58digits (bytesToNat l)).reverse.map fun d => B58A.getD d 0)

/-- Strict UTF-8 decoding, as Python `bytes.decode("utf-8")`: rejects
stray continuation bytes, truncated sequences, overlong encodings,
surrogate code points and values above `0x10FFFF`; `none` models
`UnicodeDecodeError`. -/
def utf8Decode : List Nat → Option (List Char)
  | [] => some []
  | b :: rest =>
    if b < 128 then
      match utf8Decode rest with
      | some cs => some (Char.ofNat b :: cs)
      | none => none
    else if b < 192 then none
    else if b < 224 then
      match rest with
      | c1 :: rest2 =>
        if 128 ≤ c1 && c1 < 192 then
          let cp := (b - 192) * 64 + (c1 - 128)
          if cp < 128 then none
          else
            match utf8Decode rest2 with
            | some cs => some (Char.ofNat cp :: cs)
            | none => none
        else none
      | [] => none
    else if b < 240 then
      match rest with
      | c1 :: c2 :: rest2 =>
        if (128 ≤ c1 && c1 < 192) && (128 ≤ c2 && c2 < 192) then
          let cp := (b - 224) * 4096 + (c1 - 128) * 64 + (c2 - 128)
          if cp < 2048 then none
          else if 55296 ≤ cp && cp < 57344 then none
          else
            match utf8Decode rest2 with
            | some cs => some (Char.ofNat cp :: cs)
            | none => none
        else none
      | _ => none
    else if b < 248 then
      match rest with
      | c1 :: c2 :: c3 :: rest2 =>
        if ((128 ≤ c1 && c1 < 192) && (128 ≤ c2 && c2 < 192))
            && (128 ≤ c3 && c3 < 192) then
          let cp := (b - 240) * 262144 + (c1 - 128) * 4096
                      + (c2 - 128) * 64 + (c3 - 128)
          if cp < 65536 then none
          else if 1114111 < cp then none
          else
            match utf8Decode rest2 with
            | some cs => some (Char.ofNat cp :: cs)
            | none => none
        else none
      | _ => none
    else none

/-- The NUL character `'\x00'`. -/
def nulChar : Char := Char.ofNat 0

/-- Python `str.strip("\x00")`: removes NUL characters from BOTH ends of
the string (leading and trailing), leaving embedded NULs in place. -/
def stripNulls (s : List Char) : List Char :=
  (((s.dropWhile (· == nulChar)).reverse.dropWhile (· == nulChar))).reverse

/-- Python `bytes(tuple).decode("utf-8").strip("\x00")`: strict UTF-8
decoding then NUL stripping at both ends; `UnicodeDecodeError` on
invalid UTF-8. -/
def decodeText (l : List Nat) : Except DecodeError (List Char) :=
  match utf8Decode l with
  | some cs => .ok (stripNulls cs)
  | none => .error .unicodeDecodeError

/-- The dictionary `unpack_metadata_account` returns, as a record: the
keys of the Python dict (with the nested `"data"` dict flattened) become
fields. `update_authority`, `mint` and every element of `creators` are
base-58 ASCII byte strings; `verified` and `share` hold the raw flag and
share bytes, exactly as the Python lists do. -/
structure Metadata where
  update_authority : List Nat
  mint : List Nat
  name : List Char
  symbol : List Char
  uri : List Char
  seller_fee_basis_points : Int
  creators : List (List Nat)
  verified : List Nat
  share : List Nat
  primary_sale_happened : Bool
  is_mutable : Bool
deriving DecidableEq, Repr

/-- Lines 52–85 of `src/metadata.py`: the version assertion, the two
32-byte keys, the three length-prefixed text fields (raw bytes, UTF-8
decoding happens later, at dict construction) and the seller fee.
Returns the parsed pieces plus the unread suffix of the buffer. -/
def parseHeader (data : List Nat) :
    Except DecodeError
      (List Nat × List Nat × List Nat × List Nat × List Nat × Int × List Nat) :=
  match readByteIx data with
  | .error e => .error e
  | .ok (v, d) =>
    if v ≠ 4 then .error .assertionError
    else
      match readBytes 32 d with
      | .error e => .error e
      | .ok (ua, d) =>
        match readBytes 32 d with
        | .error e => .error e
        | .ok (mintB, d) =>
          match readU32 d with
          | .error e => .error e
          | .ok (name_len, d) =>
            match readBytes name_len d with
            | .error e => .error e
            | .ok (nameB, d) =>
              match readU32 d with
              | .error e => .error e
              | .ok (symbol_len, d) =>
                match readBytes symbol_len d with
                | .error e => .error e
                | .ok (symbolB, d) =>
                  match readU32 d with
                  | .error e => .error e
                  | .ok (uri_len, d) =>
                    match readBytes uri_len d with
                    | .error e => .error e
                    | .ok (uriB, d) =>
                      match readI16 d with
                      | .error e => .error e
                      | .ok (fee, d) =>
                        .ok (ua, mintB, nameB, symbolB, uriB, fee, d)

/-- Lines 101–112 of `src/metadata.py`: the `for _ in range(creator_len)`
loop. Each iteration reads a 32-byte address (appended base-58 encoded to
`creators`), one verified byte and one share byte (appended raw to
`verified` / `share`). Returns the three lists in encounter order plus
the unread suffix. -/
def parseCreatorsLoop :
    Nat → List Nat →
    Except DecodeError (List (List Nat) × List Nat × List Nat × List Nat)
  | 0, d => .ok ([], [], [], d)
  | n + 1, d =>
    match readBytes 32 d with
    | .error e => .error e
    | .ok (addr, d) =>
      match readByteIx d with
      | .error e => .error e
      | .ok (v, d) =>
        match readByteIx d with
        | .error e => .error e
        | .ok (s, d) =>
          match parseCreatorsLoop n d with
          | .error e => .error e
          | .ok (cs, vs, ss, d) =>
            .ok (b58encode addr :: cs, v :: vs, s :: ss, d)

/-- `unpack_metadata_account` (lines 40–138 of `src/metadata.py`):
header fields, the `has_creator` flag, the conditional creator loop, the
two trailing boolean bytes, then — at dictionary construction — UTF-8
decoding and NUL stripping of the three text fields. -/
def unpack_metadata_account (data : List Nat) : Except DecodeError Metadata :=
  match parseHeader data with
  | .error e => .error e
  | .ok (ua, mintB, nameB, symbolB, uriB, fee, d) =>
    match readByteIx d with
    | .error e => .error e
    | .ok (has_creator, d) =>
      match
        (if has_creator ≠ 0 then
          match readU32 d with
          | .error e => .error e
          | .ok (creator_len, d) => parseCreatorsLoop creator_len d
        else .ok ([], [], [], d) :
          Except DecodeError (List (List Nat) × List Nat × List Nat × List Nat)) with
      | .error e => .error e
      | .ok (creators, verified, share, d) =>
        match readByteIx d with
        | .error e => .error e
        | .ok (psh, d) =>
          match readByteIx d with
          | .error e => .error e
          | .ok (im, _) =>
            match decodeText nameB with
            | .error e => .error e
            | .ok name =>
              match decodeText symbolB with
              | .error e => .error e
              | .ok symbol =>
                match decodeText uriB with
                | .error e => .error e
                | .ok uri =>
                  .ok { update_authority := b58encode ua
                        mint := b58encode mintB
                        name := name
                        symbol := symbol
                        uri := uri
                        seller_fee_basis_points := fee
                        creators := creators
                        verified := verified
                        share := share
                        primary_sale_happened := psh != 0
                        is_mutable := im != 0 }

/-- `true` exactly when the decoder failed with a truncation-class error
(Python `IndexError` or `struct.error`); in particular `false` whenever a
record was returned. -/
def truncFails (r : Except DecodeError Metadata) : Bool :=
  match r with
  | .error e => DecodeError.truncClass e
  | .ok _ => false

/-- Modelled from the spec: one creator entry of the wire grammar (§4
step 8) — 32 address bytes, then the verified byte, then the share byte. -/
def encodeCreator (c : List Nat × Nat × Nat) : List Nat :=
  c.1 ++ [c.2.1, c.2.2]

/-- Modelled from the spec: the 4-byte little-endian encoding of an
unsigned 32-bit length (§4 steps 4 and 8). -/
def u32bytes (n : Nat) : List Nat :=
  [n % 256, n / 256 % 256, n / 65536 % 256, n / 16777216 % 256]

/-- Modelled from the spec: the conditional creator block (§4 step 8) —
just the flag byte when it is zero, otherwise the flag byte, the 4-byte
creator count and the creator entries. -/
def encodeCreatorsBlock (hc : Nat) (cs : List (List Nat × Nat × Nat)) : List Nat :=
  if hc = 0 then [hc]
  else [hc] ++ u32bytes cs.length ++ (cs.map encodeCreator).flatten

/-- Modelled from the spec: the full wire grammar of §4 — a well-formed
encoding of the given logical content (the version tag, both 32-byte
keys, the three length-prefixed text fields, the two fee bytes, the
conditional creator block and the two trailing flag bytes). -/
def encodeMeta (ua mintB nameB symbolB uriB : List Nat) (fee0 fee1 hc : Nat)
    (cs : List (List Nat × Nat × Nat)) (psh im : Nat) : List Nat :=
  [4] ++ ua ++ mintB
    ++ u32bytes nameB.length ++ nameB
    ++ u32bytes symbolB.length ++ symbolB
    ++ u32bytes uriB.length ++ uriB
    ++ [fee0, fee1]
    ++ encodeCreatorsBlock hc cs
    ++ [psh, im]

/-- The concrete buffer of the spec's concrete scenario (§8): version 4,
32 bytes of `0x01`, 32 bytes of `0x02`, name `"Foo"` (length 3), symbol
`"F"` (length 1), uri of length 0, fee bytes for 500 little-endian
(`0xF4 0x01`), `hasCreators = 0`, `primarySaleHappened = 1`,
`isMutable = 0`. -/
def c1buf : List Nat :=
  [4] ++ List.replicate 32 1 ++ List.replicate 32 2
    ++ [3, 0, 0, 0] ++ [70, 111, 111]
    ++ [1, 0, 0, 0] ++ [70]
    ++ [0, 0, 0, 0]
    ++ [244, 1] ++ [0] ++ [1] ++ [0]

/-- A well-formed buffer whose name field bytes are `"\x00ABC\x00"`
(declared length 5, a leading and a trailing NUL around `"ABC"`); all
other fields are trivial. -/
def c4buf : List Nat :=
  encodeMeta (List.replicate 32 0) (List.replicate 32 0)
    [0, 65, 66, 67, 0] [] [] 0 0 0 [] 0 0

/-- A well-formed buffer with one creator whose verified byte is `2`
(nonzero but not `1`). -/
def c8bufA : List Nat :=
  encodeMeta (List.replicate 32 0) (List.replicate 32 0)
    [] [] [] 0 0 1 [(List.replicate 32 0, 2, 10)] 0 0

/-- The same buffer as `c8bufA` except the creator's verified byte is
`1`. -/
def c8bufB : List Nat :=
  encodeMeta (List.replicate 32 0) (List.replicate 32 0)
    [] [] [] 0 0 1 [(List.replicate 32 0, 1, 10)] 0 0

/-- A minimal well-formed buffer: zero keys, empty text fields, fee 0,
no creators, both flags 0. -/
def c10buf : List Nat :=
  encodeMeta (List.replicate 32 0) (List.replicate 32 0) [] [] [] 0 0 0 [] 0 0

/-- The record `unpack_metadata_account` returns on `c10buf` (the
base-58 encoding of 32 zero bytes is 32 `'1'` characters, ASCII 49). -/
def c10md : Metadata :=
  { update_authority := List.replicate 32 49
    mint := List.replicate 32 49
    name := []
    symbol := []
    uri := []
    seller_fee_basis_points := 0
    creators := []
    verified := []
    share := []
    primary_sale_happened := false
    is_mutable := false }

/-- `t` is `s` with exactly its leading and trailing NUL characters
removed: `s` is `t` surrounded by (possibly empty) NUL padding on both
sides, and `t` itself neither starts nor ends with a NUL (embedded NULs
are untouched). -/
def stripSpec (s t : List Char) : Prop :=
  (∃ a b, s = List.replicate a nulChar ++ t ++ List.replicate b nulChar) ∧
  t.head? ≠ some nulChar ∧ t.getLast? ≠ some nulChar

theorem readBytes_exact (n : Nat) (a rest : List Nat) (h : a.length = n) :
    readBytes n (a ++ rest) = .ok (a, rest) := by
  subst h
  simp [readBytes, List.take_left, List.drop_left]

theorem readU32_u32bytes (n : Nat) (rest : List Nat) (h : n < 4294967296) :
    readU32 (u32bytes n ++ rest) = .ok (n, rest) := by
  have : n % 256 + 256 * (n / 256 % 256) + 65536 * (n / 65536 % 256)
      + 16777216 * (n / 16777216 % 256) = n := by omega
  simp [u32bytes, readU32, this]

theorem parseCreatorsLoop_encode (cs : List (List Nat × Nat × Nat))
    (rest : List Nat) (h : ∀ c ∈ cs, c.1.length = 32) :
    parseCreatorsLoop cs.length ((cs.map encodeCreator).flatten ++ rest) =
      .ok (cs.map fun c => b58encode c.1, cs.map fun c => c.2.1,
           cs.map fun c => c.2.2, rest) := by
  induction cs with
  | nil => simp [parseCreatorsLoop]
  | cons c cs ih =>
    have hc : c.1.length = 32 := h c (List.mem_cons_self c cs)
    have hcs : ∀ x ∈ cs, x.1.length = 32 := fun x hx => h x (List.mem_cons_of_mem c hx)
    simp only [List.map_cons, List.flatten, List.length_cons, List.append_assoc,
      encodeCreator]
    simp [parseCreatorsLoop, readBytes_exact 32 c.1 _ hc, readByteIx, ih hcs]

theorem parseHeader_encode (ua mintB nameB symbolB uriB : List Nat)
    (fee0 fee1 : Nat) (rest : List Nat)
    (hua : ua.length = 32) (hm : mintB.length = 32)
    (hn : nameB.length < 4294967296) (hs : symbolB.length < 4294967296)
    (hu : uriB.length < 4294967296) :
    parseHeader ([4] ++ ua ++ mintB
        ++ u32bytes nameB.length ++ nameB
        ++ u32bytes symbolB.length ++ symbolB
        ++ u32bytes uriB.length ++ uriB
        ++ [fee0, fee1] ++ rest) =
      .ok (ua, mintB, nameB, symbolB, uriB, unpack_h fee0 fee1, rest) := by
  simp only [List.append_assoc, List.singleton_append, List.cons_append,
    List.nil_append]
  simp [parseHeader, readByteIx, readI16,
    readBytes_exact 32 ua _ hua, readBytes_exact 32 mintB _ hm,
    readU32_u32bytes _ _ hn, readU32_u32bytes _ _ hs, readU32_u32bytes _ _ hu,
    readBytes_exact nameB.length nameB _ rfl,
    readBytes_exact symbolB.length symbolB _ rfl,
    readBytes_exact uriB.length uriB _ rfl]

theorem unpack_encode_creators (ua mintB nameB symbolB uriB : List Nat)
    (fee0 fee1 hc : Nat) (cs : List (List Nat × Nat × Nat)) (psh im : Nat)
    (nm sm um : List Char)
    (hua : ua.length = 32) (hm : mintB.length = 32)
    (hn : nameB.length < 4294967296) (hs : symbolB.length < 4294967296)
    (hu : uriB.length < 4294967296)
    (hhc : hc ≠ 0) (hclen : cs.length < 4294967296)
    (hcs : ∀ c ∈ cs, c.1.length = 32)
    (hnm : utf8Decode nameB = some nm) (hsm : utf8Decode symbolB = some sm)
    (hum : utf8Decode uriB = some um) :
    unpack_metadata_account
        (encodeMeta ua mintB nameB symbolB uriB fee0 fee1 hc cs psh im) =
      .ok { update_authority := b58encode ua
            mint := b58encode mintB
            name := stripNulls nm
            symbol := stripNulls sm
            uri := stripNulls um
            seller_fee_basis_points := unpack_h fee0 fee1
            creators := cs.map fun c => b58encode c.1
            verified := cs.map fun c => c.2.1
            share := cs.map fun c => c.2.2
            primary_sale_happened := psh != 0
            is_mutable := im != 0 } := by
  have hblock :
      encodeMeta ua mintB nameB symbolB uriB fee0 fee1 hc cs psh im =
        [4] ++ ua ++ mintB
          ++ u32bytes nameB.length ++ nameB
          ++ u32bytes symbolB.length ++ symbolB
          ++ u32bytes uriB.length ++ uriB
          ++ [fee0, fee1]
          ++ (hc :: (u32bytes cs.length
                ++ ((cs.map encodeCreator).flatten ++ [psh, im]))) := by
    simp [encodeMeta, encodeCreatorsBlock, hhc, List.append_assoc]
  rw [unpack_metadata_account, hblock,
    parseHeader_encode ua mintB nameB symbolB uriB fee0 fee1 _ hua hm hn hs hu]
  simp [readByteIx, hhc, readU32_u32bytes _ _ hclen,
    parseCreatorsLoop_encode cs _ hcs, decodeText, hnm, hsm, hum]

theorem unpack_encode_nocreators (ua mintB nameB symbolB uriB : List Nat)
    (fee0 fee1 : Nat) (cs : List (List Nat × Nat × Nat)) (psh im : Nat)
    (nm sm um : List Char)
    (hua : ua.length = 32) (hm : mintB.length = 32)
    (hn : nameB.length < 4294967296) (hs : symbolB.length < 4294967296)
    (hu : uriB.length < 4294967296)
    (hnm : utf8Decode nameB = some nm) (hsm : utf8Decode symbolB = some sm)
    (hum : utf8Decode uriB = some um) :
    unpack_metadata_account
        (encodeMeta ua mintB nameB symbolB uriB fee0 fee1 0 cs psh im) =
      .ok { update_authority := b58encode ua
            mint := b58encode mintB
            name := stripNulls nm
            symbol := stripNulls sm
            uri := stripNulls um
            seller_fee_basis_points := unpack_h fee0 fee1
            creators := []
            verified := []
            share := []
            primary_sale_happened := psh != 0
            is_mutable := im != 0 } := by
  have hblock :
      encodeMeta ua mintB nameB symbolB uriB fee0 fee1 0 cs psh im =
        [4] ++ ua ++ mintB
          ++ u32bytes nameB.length ++ nameB
          ++ u32bytes symbolB.length ++ symbolB
          ++ u32bytes uriB.length ++ uriB
          ++ [fee0, fee1]
          ++ (0 :: [psh, im]) := by
    simp [encodeMeta, encodeCreatorsBlock, List.append_assoc]
  rw [unpack_metadata_account, hblock,
    parseHeader_encode ua mintB nameB symbolB uriB fee0 fee1 _ hua hm hn hs hu]
  simp [readByteIx, decodeText, hnm, hsm, hum]

/-- C1: for the concrete buffer of the spec scenario (version byte 4,
32 bytes of 0x01, 32 bytes of 0x02, name length 3 + `"Foo"`, symbol
length 1 + `"F"`, uri length 0, little-endian signed fee bytes for 500,
hasCreators 0, primarySaleHappened 1, isMutable 0), decode succeeds and
the record has `sellerFeeBasisPoints = 500`, an empty creator sequence,
`primarySaleHappened = true`, `isMutable = false`, `name = "Foo"`,
`symbol = "F"` and `uri = ""`. -/
theorem c1_concrete_scenario :
    (unpack_metadata_account c1buf).map
        (fun md => (md.seller_fee_basis_points, md.creators, md.verified,
          md.share, md.primary_sale_happened, md.is_mutable,
          md.name, md.symbol, md.uri)) =
      .ok (500, [], [], [], true, false, ['F', 'o', 'o'], ['F'], []) := by
  rfl

/-- C3: for every non-empty buffer whose first byte is not 4, decode
fails with the invalid-version error (the `AssertionError` of
`assert(data[0] == 4)`), whatever the remaining bytes are, and no record
is returned. -/
theorem c3_invalid_version (b : Nat) (rest : List Nat) (hb : b ≠ 4) :
    unpack_metadata_account (b :: rest) = .error .assertionError := by
  simp [unpack_metadata_account, parseHeader, readByteIx, hb]

theorem c3_invalid_version_witness :
    (5 : Nat) ≠ 4 ∧
      unpack_metadata_account (5 :: [7, 7, 7]) = .error .assertionError :=
  ⟨by decide, c3_invalid_version 5 [7, 7, 7] (by decide)⟩

/-- C9: decode is a pure, deterministic function of its input bytes —
two calls on bit-identical buffers return bit-identical results.  (In
this embedding `unpack_metadata_account` is a function of the buffer
alone, so the result depends on nothing else; the buffer itself is never
modified, a `List Nat` being immutable.) -/
theorem c9_deterministic (d1 d2 : List Nat) (h : d1 = d2) :
    unpack_metadata_account d1 = unpack_metadata_account d2 := by
  rw [h]

theorem c9_deterministic_witness :
    unpack_metadata_account c1buf = unpack_metadata_account c1buf :=
  c9_deterministic c1buf c1buf rfl

/-- C5: for every valid buffer with a nonzero hasCreators flag and
creator count 3, decode yields exactly 3 creator records, in buffer
order, each verified byte and share byte paired with the address read
immediately before them (the wire layout places `aᵢ, vᵢ, sᵢ`
consecutively, and the decoded lists pair them indexwise). -/
theorem c5_three_creators (ua mintB nameB symbolB uriB : List Nat)
    (fee0 fee1 hc : Nat) (a1 a2 a3 : List Nat)
    (v1 s1 v2 s2 v3 s3 psh im : Nat) (nm sm um : List Char)
    (hua : ua.length = 32) (hm : mintB.length = 32)
    (hn : nameB.length < 4294967296) (hs : symbolB.length < 4294967296)
    (hu : uriB.length < 4294967296) (hhc : hc ≠ 0)
    (ha1 : a1.length = 32) (ha2 : a2.length = 32) (ha3 : a3.length = 32)
    (hnm : utf8Decode nameB = some nm) (hsm : utf8Decode symbolB = some sm)
    (hum : utf8Decode uriB = some um) :
    (unpack_metadata_account (encodeMeta ua mintB nameB symbolB uriB fee0 fee1
        hc [(a1, v1, s1), (a2, v2, s2), (a3, v3, s3)] psh im)).map
      (fun md => (md.creators, md.verified, md.share)) =
      .ok ([b58encode a1, b58encode a2, b58encode a3],
           [v1, v2, v3], [s1, s2, s3]) := by
  have hcs : ∀ c ∈ [(a1, v1, s1), (a2, v2, s2), (a3, v3, s3)],
      c.1.length = 32 := by
    intro c hmem
    simp only [List.mem_cons, List.not_mem_nil, or_false] at hmem
    rcases hmem with rfl | rfl | rfl <;> simpa
  rw [unpack_encode_creators ua mintB nameB symbolB uriB fee0 fee1 hc _ psh im
    nm sm um hua hm hn hs hu hhc (by simp) hcs hnm hsm hum]
  rfl

theorem c5_three_creators_witness :
    (unpack_metadata_account (encodeMeta (List.replicate 32 0)
        (List.replicate 32 0) [] [] [] 0 0 1
        [(List.replicate 32 0, 1, 10), (List.replicate 32 0, 0, 20),
         (List.replicate 32 0, 1, 30)] 0 0)).map
      (fun md => (md.creators, md.verified, md.share)) =
      .ok ([b58encode (List.replicate 32 0), b58encode (List.replicate 32 0),
            b58encode (List.replicate 32 0)], [1, 0, 1], [10, 20, 30]) :=
  c5_three_creators (List.replicate 32 0) (List.replicate 32 0) [] [] []
    0 0 1 (List.replicate 32 0) (List.replicate 32 0) (List.replicate 32 0)
    1 10 0 20 1 30 0 0 [] [] []
    (by decide) (by decide) (by decide) (by decide) (by decide) (by decide)
    (by decide) (by decide) (by decide) rfl rfl rfl

/-- C6: for every valid buffer whose hasCreators flag byte is zero,
decode yields empty creator/verified/share sequences and consumes no
bytes for a creator count or entries — the byte placed immediately after
the flag in the encoding is the one decoded as `primarySaleHappened`. -/
theorem c6_flag_zero (ua mintB nameB symbolB uriB : List Nat)
    (fee0 fee1 psh im : Nat) (nm sm um : List Char)
    (hua : ua.length = 32) (hm : mintB.length = 32)
    (hn : nameB.length < 4294967296) (hs : symbolB.length < 4294967296)
    (hu : uriB.length < 4294967296)
    (hnm : utf8Decode nameB = some nm) (hsm : utf8Decode symbolB = some sm)
    (hum : utf8Decode uriB = some um) :
    (unpack_metadata_account
        (encodeMeta ua mintB nameB symbolB uriB fee0 fee1 0 [] psh im)).map
      (fun md => (md.creators, md.verified, md.share,
        md.primary_sale_happened)) =
      .ok ([], [], [], psh != 0) := by
  rw [unpack_encode_nocreators ua mintB nameB symbolB uriB fee0 fee1 [] psh im
    nm sm um hua hm hn hs hu hnm hsm hum]
  rfl

theorem c6_flag_zero_witness :
    (unpack_metadata_account (encodeMeta (List.replicate 32 0)
        (List.replicate 32 0) [] [] [] 0 0 0 [] 1 0)).map
      (fun md => (md.creators, md.verified, md.share,
        md.primary_sale_happened)) =
      .ok ([], [], [], (1 : Nat) != 0) :=
  c6_flag_zero (List.replicate 32 0) (List.replicate 32 0) [] [] [] 0 0 1 0
    [] [] [] (by decide) (by decide) (by decide) (by decide) (by decide)
    rfl rfl rfl

/-- C7: for every valid buffer, the seller fee is decoded from its two
bytes `b0, b1` as a signed 16-bit little-endian integer with no scaling:
`b0 + 256*b1` when that is below 32768, and `b0 + 256*b1 - 65536`
otherwise. -/
theorem c7_fee_signed_le (ua mintB nameB symbolB uriB : List Nat)
    (fee0 fee1 hc : Nat) (cs : List (List Nat × Nat × Nat)) (psh im : Nat)
    (nm sm um : List Char)
    (hua : ua.length = 32) (hm : mintB.length = 32)
    (hn : nameB.length < 4294967296) (hs : symbolB.length < 4294967296)
    (hu : uriB.length < 4294967296)
    (hclen : cs.length < 4294967296) (hcs : ∀ c ∈ cs, c.1.length = 32)
    (hb0 : fee0 < 256) (hb1 : fee1 < 256)
    (hnm : utf8Decode nameB = some nm) (hsm : utf8Decode symbolB = some sm)
    (hum : utf8Decode uriB = some um) :
    (unpack_metadata_account
        (encodeMeta ua mintB nameB symbolB uriB fee0 fee1 hc cs psh im)).map
      (fun md => md.seller_fee_basis_points) =
      .ok (if fee0 + 256 * fee1 < 32768
        then ((fee0 : Int) + 256 * (fee1 : Int))
        else ((fee0 : Int) + 256 * (fee1 : Int)) - 65536) := by
  have hfee : unpack_h fee0 fee1 =
      (if fee0 + 256 * fee1 < 32768
        then ((fee0 : Int) + 256 * (fee1 : Int))
        else ((fee0 : Int) + 256 * (fee1 : Int)) - 65536) := by
    unfold unpack_h
    split <;> push_cast <;> ring
  by_cases hhc : hc = 0
  · subst hhc
    rw [unpack_encode_nocreators ua mintB nameB symbolB uriB fee0 fee1 cs psh
      im nm sm um hua hm hn hs hu hnm hsm hum]
    simp [hfee, Except.map]
  · rw [unpack_encode_creators ua mintB nameB symbolB uriB fee0 fee1 hc cs psh
      im nm sm um hua hm hn hs hu hhc hclen hcs hnm hsm hum]
    simp [hfee, Except.map]

theorem c7_fee_signed_le_witness :
    (unpack_metadata_account (encodeMeta (List.replicate 32 0)
        (List.replicate 32 0) [] [] [] 255 255 0 [] 0 0)).map
      (fun md => md.seller_fee_basis_points) =
      .ok (if 255 + 256 * 255 < 32768
        then ((255 : Int) + 256 * (255 : Int))
        else ((255 : Int) + 256 * (255 : Int)) - 65536) :=
  c7_fee_signed_le (List.replicate 32 0) (List.replicate 32 0) [] [] []
    255 255 0 [] 0 0 [] [] []
    (by decide) (by decide) (by decide) (by decide) (by decide) (by decide)
    (by decide) (by decide) (by decide) rfl rfl rfl

theorem dropWhile_nul_decomp (s : List Char) :
    ∃ a, s = List.replicate a nulChar ++ s.dropWhile (· == nulChar) ∧
      (s.dropWhile (· == nulChar)).head? ≠ some nulChar := by
  induction s with
  | nil => exact ⟨0, rfl, by simp⟩
  | cons x t ih =>
    by_cases hx : x == nulChar
    · obtain ⟨a, heq, hh⟩ := ih
      have hxe : x = nulChar := by exact eq_of_beq hx
      refine ⟨a + 1, ?_, ?_⟩
      · rw [List.dropWhile_cons, if_pos hx, List.replicate_succ, hxe]
        simpa using heq
      · rw [List.dropWhile_cons, if_pos hx]
        exact hh
    · refine ⟨0, by simp [List.dropWhile_cons, hx], ?_⟩
      rw [List.dropWhile_cons, if_neg hx]
      simp only [List.head?_cons, ne_eq, Option.some.injEq]
      intro hxe
      exact hx (by simp [hxe])

theorem dropWhile_getLast_of_ne_nil {α : Type} (p : α → Bool) (l : List α)
    (h : l.dropWhile p ≠ []) : (l.dropWhile p).getLast? = l.getLast? := by
  induction l with
  | nil => simp at h
  | cons x t ih =>
    by_cases hx : p x
    · rw [List.dropWhile_cons, if_pos hx] at h ⊢
      have ht : t ≠ [] := by
        rintro rfl
        simp [List.dropWhile] at h
      rw [ih h]
      cases t with
      | nil => exact absurd rfl ht
      | cons y u => rw [List.getLast?_cons_cons]
    · rw [List.dropWhile_cons, if_neg hx]

theorem stripNulls_stripSpec (s : List Char) : stripSpec s (stripNulls s) := by
  obtain ⟨a, hs1, hh1⟩ := dropWhile_nul_decomp s
  obtain ⟨b, hs2, hh2⟩ :=
    dropWhile_nul_decomp (s.dropWhile (· == nulChar)).reverse
  have hstrip : stripNulls s =
      ((s.dropWhile (· == nulChar)).reverse.dropWhile (· == nulChar)).reverse :=
    rfl
  have htu : s.dropWhile (· == nulChar) =
      ((s.dropWhile (· == nulChar)).reverse.dropWhile (· == nulChar)).reverse
        ++ List.replicate b nulChar := by
    have h2 := congrArg List.reverse hs2
    simpa [List.reverse_append, List.reverse_replicate] using h2
  refine ⟨⟨a, b, ?_⟩, ?_, ?_⟩
  · rw [hstrip, List.append_assoc, ← htu, ← hs1]
  · rw [hstrip, List.head?_reverse]
    by_cases hune :
        (s.dropWhile (· == nulChar)).reverse.dropWhile (· == nulChar) = []
    · simp [hune]
    · rw [dropWhile_getLast_of_ne_nil _ _ hune, List.getLast?_reverse]
      exact hh1
  · rw [hstrip, List.getLast?_reverse]
    exact hh2

/-- C4 counterexample: the claim predicts that a name field whose
declared-length bytes are `"\x00ABC\x00"` decodes to `"\x00ABC"` (only
the trailing NUL stripped).  On the code, Python `str.strip("\x00")`
strips NULs from BOTH ends, so the buffer `c4buf` (whose name bytes are
exactly `"\x00ABC\x00"`) decodes to name `"ABC"`, not `"\x00ABC"`. -/
theorem c4_counterexample :
    (unpack_metadata_account c4buf).map Metadata.name = .ok ['A', 'B', 'C'] ∧
    (['A', 'B', 'C'] : List Char) ≠ [nulChar, 'A', 'B', 'C'] :=
  ⟨rfl, by decide⟩

/-- C4 (amended): for every valid buffer, after UTF-8 decoding of each
text field (name, symbol, uri), exactly the leading AND trailing NUL
characters are stripped — never embedded ones — so each decoded field is
the UTF-8 string with its (possibly empty) NUL padding removed from both
ends and its remaining core, which neither starts nor ends with NUL,
kept intact.  (E.g. a name whose bytes are `"\x00ABC\x00"` decodes to
`"ABC"`.) -/
theorem c4_amended_strip_both_ends (ua mintB nameB symbolB uriB : List Nat)
    (fee0 fee1 hc : Nat) (cs : List (List Nat × Nat × Nat)) (psh im : Nat)
    (nm sm um : List Char)
    (hua : ua.length = 32) (hm : mintB.length = 32)
    (hn : nameB.length < 4294967296) (hs : symbolB.length < 4294967296)
    (hu : uriB.length < 4294967296)
    (hclen : cs.length < 4294967296) (hcs : ∀ c ∈ cs, c.1.length = 32)
    (hnm : utf8Decode nameB = some nm) (hsm : utf8Decode symbolB = some sm)
    (hum : utf8Decode uriB = some um) :
    (unpack_metadata_account
        (encodeMeta ua mintB nameB symbolB uriB fee0 fee1 hc cs psh im)).map
      (fun md => (md.name, md.symbol, md.uri)) =
      .ok (stripNulls nm, stripNulls sm, stripNulls um) ∧
    stripSpec nm (stripNulls nm) ∧ stripSpec sm (stripNulls sm) ∧
    stripSpec um (stripNulls um) := by
  refine ⟨?_, stripNulls_stripSpec nm, stripNulls_stripSpec sm,
    stripNulls_stripSpec um⟩
  by_cases hhc : hc = 0
  · subst hhc
    rw [unpack_encode_nocreators ua mintB nameB symbolB uriB fee0 fee1 cs psh
      im nm sm um hua hm hn hs hu hnm hsm hum]
    rfl
  · rw [unpack_encode_creators ua mintB nameB symbolB uriB fee0 fee1 hc cs psh
      im nm sm um hua hm hn hs hu hhc hclen hcs hnm hsm hum]
    rfl

theorem c4_amended_strip_both_ends_witness :
    (unpack_metadata_account (encodeMeta (List.replicate 32 0)
        (List.replicate 32 0) [0, 65, 66, 67, 0] [] [] 0 0 0 [] 0 0)).map
      (fun md => (md.name, md.symbol, md.uri)) =
      .ok (stripNulls [nulChar, 'A', 'B', 'C', nulChar], stripNulls [],
        stripNulls []) ∧
    stripSpec [nulChar, 'A', 'B', 'C', nulChar]
      (stripNulls [nulChar, 'A', 'B', 'C', nulChar]) ∧
    stripSpec [] (stripNulls []) ∧ stripSpec [] (stripNulls []) :=
  c4_amended_strip_both_ends (List.replicate 32 0) (List.replicate 32 0)
    [0, 65, 66, 67, 0] [] [] 0 0 0 [] 0 0
    [nulChar, 'A', 'B', 'C', nulChar] [] []
    (by decide) (by decide) (by decide) (by decide) (by decide) (by decide)
    (by simp) rfl rfl rfl

/-- C8 counterexample: the claim predicts each creator's verified field
is a boolean, `true` exactly when the flag byte is nonzero — so a
verified byte of `2` and a verified byte of `1` must decode identically
(both `true`).  On the code, `verified.append(data[i])` stores the RAW
byte: `c8bufA` (verified byte 2) decodes to verified `[2]` and `c8bufB`
(verified byte 1) to `[1]`, which differ. -/
theorem c8_counterexample :
    (unpack_metadata_account c8bufA).map Metadata.verified = .ok [2] ∧
    (unpack_metadata_account c8bufB).map Metadata.verified = .ok [1] ∧
    ([2] : List Nat) ≠ [1] :=
  ⟨rfl, rfl, by decide⟩

/-- C8 (amended): for every valid buffer with creators present, each
decoded creator's verified field is the RAW 1-byte flag value from the
buffer (nonzero meaning verified), not a boolean — e.g. a verified byte
of 2 is returned as the number 2. -/
theorem c8_amended_raw_verified (ua mintB nameB symbolB uriB : List Nat)
    (fee0 fee1 hc : Nat) (cs : List (List Nat × Nat × Nat)) (psh im : Nat)
    (nm sm um : List Char)
    (hua : ua.length = 32) (hm : mintB.length = 32)
    (hn : nameB.length < 4294967296) (hs : symbolB.length < 4294967296)
    (hu : uriB.length < 4294967296)
    (hhc : hc ≠ 0)
    (hclen : cs.length < 4294967296) (hcs : ∀ c ∈ cs, c.1.length = 32)
    (hnm : utf8Decode nameB = some nm) (hsm : utf8Decode symbolB = some sm)
    (hum : utf8Decode uriB = some um) :
    (unpack_metadata_account
        (encodeMeta ua mintB nameB symbolB uriB fee0 fee1 hc cs psh im)).map
      Metadata.verified = .ok (cs.map fun c => c.2.1) := by
  rw [unpack_encode_creators ua mintB nameB symbolB uriB fee0 fee1 hc cs psh
    im nm sm um hua hm hn hs hu hhc hclen hcs hnm hsm hum]
  rfl

theorem c8_amended_raw_verified_witness :
    (unpack_metadata_account (encodeMeta (List.replicate 32 0)
        (List.replicate 32 0) [] [] [] 0 0 1
        [(List.replicate 32 0, 2, 10)] 0 0)).map
      Metadata.verified = .ok [2] :=
  c8_amended_raw_verified (List.replicate 32 0) (List.replicate 32 0) [] [] []
    0 0 1 [(List.replicate 32 0, 2, 10)] 0 0 [] [] []
    (by decide) (by decide) (by decide) (by decide) (by decide) (by decide)
    (by simp) (by simp) rfl rfl rfl

theorem readByteIx_ok (l r : List Nat) (b : Nat)
    (h : readByteIx l = .ok (b, r)) : l = b :: r := by
  cases l with
  | nil => simp [readByteIx] at h
  | cons x t =>
    simp only [readByteIx, Except.ok.injEq, Prod.mk.injEq] at h
    obtain ⟨rfl, rfl⟩ := h
    rfl

theorem parseCreatorsLoop_length (n : Nat) (d : List Nat)
    (cs : List (List Nat)) (vs ss r : List Nat)
    (h : parseCreatorsLoop n d = .ok (cs, vs, ss, r)) :
    cs.length = n ∧ vs.length = n ∧ ss.length = n := by
  induction n generalizing d cs vs ss r with
  | zero =>
    simp only [parseCreatorsLoop, Except.ok.injEq, Prod.mk.injEq] at h
    obtain ⟨rfl, rfl, rfl, -⟩ := h
    simp
  | succ n ih =>
    unfold parseCreatorsLoop at h
    split at h
    · exact absurd h (by simp)
    · split at h
      · exact absurd h (by simp)
      · split at h
        · exact absurd h (by simp)
        · split at h
          · exact absurd h (by simp)
          · rename_i addr d1 v d2 s d3 cs1 vs1 ss1 d4 heq
            simp only [Except.ok.injEq, Prod.mk.injEq] at h
            obtain ⟨rfl, rfl, rfl, -⟩ := h
            obtain ⟨h1, h2, h3⟩ := ih _ _ _ _ _ heq
            simp [h1, h2, h3]

/-- C10 (implicit): in every record decode returns successfully, the
`creators`, `verified` and `share` lists all have the same length —
equal to the declared 4-byte little-endian creator count when the
hasCreators flag byte (the byte after the fee, exposed here through
`parseHeader`) is nonzero, and zero (all three lists empty) when that
flag byte is zero — so indexwise pairing of address, verified and share
is always well defined. -/
theorem c10_parallel_creator_lists (d : List Nat) (md : Metadata)
    (h : unpack_metadata_account d = .ok md) :
    md.creators.length = md.verified.length ∧
    md.verified.length = md.share.length ∧
    (∀ ua mintB nameB symbolB uriB fee rest,
      parseHeader d = .ok (ua, mintB, nameB, symbolB, uriB, fee, rest) →
      (∀ rest2, rest = 0 :: rest2 →
        md.creators = [] ∧ md.verified = [] ∧ md.share = []) ∧
      (∀ hc b0 b1 b2 b3 rest2,
        rest = hc :: b0 :: b1 :: b2 :: b3 :: rest2 → hc ≠ 0 →
        md.creators.length = b0 + 256 * b1 + 65536 * b2 + 16777216 * b3)) := by
  unfold unpack_metadata_account at h
  split at h
  · exact absurd h (by simp)
  · rename_i ua mintB nameB symbolB uriB fee rest1 heq1
    split at h
    · exact absurd h (by simp)
    · rename_i has_creator d2 heq2
      have hrest1 : rest1 = has_creator :: d2 := readByteIx_ok _ _ _ heq2
      split at h
      · exact absurd h (by simp)
      · rename_i creators verified share d3 heq3
        split at h
        · exact absurd h (by simp)
        · rename_i psh d4 heq4
          split at h
          · exact absurd h (by simp)
          · rename_i im d5 heq5
            split at h
            · exact absurd h (by simp)
            · rename_i nm heq6
              split at h
              · exact absurd h (by simp)
              · rename_i sm heq7
                split at h
                · exact absurd h (by simp)
                · rename_i um heq8
                  simp only [Except.ok.injEq] at h
                  subst h
                  split at heq3
                  · rename_i hflag
                    split at heq3
                    · exact absurd heq3 (by simp)
                    · rename_i creator_len d3' heqU
                      obtain ⟨h1, h2, h3⟩ :=
                        parseCreatorsLoop_length _ _ _ _ _ _ heq3
                      refine ⟨by simp [h1, h2, h3], by simp [h2, h3], ?_⟩
                      intro ua' mintB' nameB' symbolB' uriB' fee' rest' hph
                      rw [heq1] at hph
                      simp only [Except.ok.injEq, Prod.mk.injEq] at hph
                      obtain ⟨-, -, -, -, -, -, rfl⟩ := hph
                      constructor
                      · intro rest2 hr0
                        rw [hrest1] at hr0
                        injection hr0 with hflag0 _
                        exact absurd hflag0 hflag
                      · intro hc b0 b1 b2 b3 rest2 hrc hhc
                        rw [hrest1] at hrc
                        injection hrc with hceq hd2
                        subst hd2
                        simp only [readU32, Except.ok.injEq, Prod.mk.injEq]
                          at heqU
                        obtain ⟨rfl, -⟩ := heqU
                        simpa using h1
                  · rename_i hflag
                    have hflag0 : has_creator = 0 := by
                      by_contra hne
                      exact hflag hne
                    simp only [Except.ok.injEq, Prod.mk.injEq] at heq3
                    obtain ⟨rfl, rfl, rfl, -⟩ := heq3
                    refine ⟨by simp, by simp, ?_⟩
                    intro ua' mintB' nameB' symbolB' uriB' fee' rest' hph
                    rw [heq1] at hph
                    simp only [Except.ok.injEq, Prod.mk.injEq] at hph
                    obtain ⟨-, -, -, -, -, -, rfl⟩ := hph
                    constructor
                    · intro rest2 hr0
                      simp
                    · intro hc b0 b1 b2 b3 rest2 hrc hhc
                      rw [hrest1, hflag0] at hrc
                      injection hrc with hceq _
                      exact absurd hceq.symm hhc

theorem c10_parallel_creator_lists_witness :
    c10md.creators.length = c10md.verified.length ∧
    c10md.verified.length = c10md.share.length :=
  ⟨(c10_parallel_creator_lists c10buf c10md (by rfl)).1,
   (c10_parallel_creator_lists c10buf c10md (by rfl)).2.1⟩

theorem readByteIx_take (b : Nat) (rest : List Nat) (k : Nat) :
    readByteIx ((b :: rest).take k) =
      if k = 0 then .error .indexError
      else .ok (b, rest.take (k - 1)) := by
  cases k with
  | zero => simp [readByteIx]
  | succ m => simp [readByteIx]

theorem readBytes_take (n : Nat) (a rest : List Nat) (k : Nat)
    (h : a.length = n) :
    readBytes n ((a ++ rest).take k) =
      if k < n then .error .structError
      else .ok (a, rest.take (k - n)) := by
  subst h
  by_cases hk : k < a.length
  · rw [if_pos hk]
    unfold readBytes
    rw [if_pos (by simp; omega)]
  · rw [if_neg hk]
    unfold readBytes
    rw [if_neg (by simp; omega)]
    rw [List.take_take, Nat.min_eq_left (by omega), List.take_left,
      List.drop_take, List.drop_left]

theorem readU32_take (m : Nat) (rest : List Nat) (k : Nat)
    (h : m < 4294967296) :
    readU32 ((u32bytes m ++ rest).take k) =
      if k < 4 then .error .structError
      else .ok (m, rest.take (k - 4)) := by
  have hm : m % 256 + 256 * (m / 256 % 256) + 65536 * (m / 65536 % 256)
      + 16777216 * (m / 16777216 % 256) = m := by omega
  rcases k with - | - | - | - | k
  · simp [u32bytes, readU32]
  · simp [u32bytes, readU32]
  · simp [u32bytes, readU32]
  · simp [u32bytes, readU32]
  · rw [if_neg (by omega)]
    simp [u32bytes, readU32, hm]

theorem readI16_take (b0 b1 : Nat) (rest : List Nat) (k : Nat) :
    readI16 ((b0 :: b1 :: rest).take k) =
      if k < 2 then .error .structError
      else .ok (unpack_h b0 b1, rest.take (k - 2)) := by
  rcases k with - | - | k
  · simp [readI16]
  · simp [readI16]
  · rw [if_neg (by omega)]
    simp [readI16]

theorem parseHeader_take (ua mintB nameB symbolB uriB : List Nat)
    (fee0 fee1 : Nat) (rest : List Nat) (k : Nat)
    (hua : ua.length = 32) (hm : mintB.length = 32)
    (hn : nameB.length < 4294967296) (hs : symbolB.length < 4294967296)
    (hu : uriB.length < 4294967296) :
    (k < 79 + nameB.length + symbolB.length + uriB.length →
      ∃ e, parseHeader (([4] ++ ua ++ mintB
          ++ u32bytes nameB.length ++ nameB
          ++ u32bytes symbolB.length ++ symbolB
          ++ u32bytes uriB.length ++ uriB
          ++ [fee0, fee1] ++ rest).take k) = .error e ∧
        DecodeError.truncClass e = true) ∧
    (79 + nameB.length + symbolB.length + uriB.length ≤ k →
      parseHeader (([4] ++ ua ++ mintB
          ++ u32bytes nameB.length ++ nameB
          ++ u32bytes symbolB.length ++ symbolB
          ++ u32bytes uriB.length ++ uriB
          ++ [fee0, fee1] ++ rest).take k) =
        .ok (ua, mintB, nameB, symbolB, uriB, unpack_h fee0 fee1,
          rest.take (k - (79 + nameB.length + symbolB.length
            + uriB.length)))) := by
  constructor
  · intro hk
    by_cases c0 : k = 0
    · refine ⟨.indexError, ?_, rfl⟩
      simp [parseHeader, readByteIx, c0]
    · by_cases c1 : k - 1 < 32
      · refine ⟨.structError, ?_, rfl⟩
        simp [parseHeader, List.append_assoc, List.singleton_append,
          List.cons_append, readByteIx_take,
          readBytes_take 32 ua _ _ hua, c0, c1]
      · by_cases c2 : k - 1 - 32 < 32
        · refine ⟨.structError, ?_, rfl⟩
          simp [parseHeader, List.append_assoc, List.singleton_append,
            List.cons_append, readByteIx_take,
            readBytes_take 32 ua _ _ hua, readBytes_take 32 mintB _ _ hm,
            c0, c1, c2]
        · by_cases c3 : k - 1 - 32 - 32 < 4
          · refine ⟨.structError, ?_, rfl⟩
            simp [parseHeader, List.append_assoc, List.singleton_append,
              List.cons_append, readByteIx_take,
              readBytes_take 32 ua _ _ hua, readBytes_take 32 mintB _ _ hm,
              readU32_take _ _ _ hn, c0, c1, c2, c3]
          · by_cases c4 : k - 1 - 32 - 32 - 4 < nameB.length
            · refine ⟨.structError, ?_, rfl⟩
              simp [parseHeader, List.append_assoc, List.singleton_append,
                List.cons_append, readByteIx_take,
                readBytes_take 32 ua _ _ hua, readBytes_take 32 mintB _ _ hm,
                readU32_take _ _ _ hn,
                readBytes_take nameB.length nameB _ _ rfl, c0, c1, c2, c3, c4]
            · by_cases c5 : k - 1 - 32 - 32 - 4 - nameB.length < 4
              · refine ⟨.structError, ?_, rfl⟩
                simp [parseHeader, List.append_assoc, List.singleton_append,
                  List.cons_append, readByteIx_take,
                  readBytes_take 32 ua _ _ hua,
                  readBytes_take 32 mintB _ _ hm,
                  readU32_take _ _ _ hn, readU32_take _ _ _ hs,
                  readBytes_take nameB.length nameB _ _ rfl,
                  c0, c1, c2, c3, c4, c5]
              · by_cases c6 : k - 1 - 32 - 32 - 4 - nameB.length - 4
                    < symbolB.length
                · refine ⟨.structError, ?_, rfl⟩
                  simp [parseHeader, List.append_assoc, List.singleton_append,
                    List.cons_append, readByteIx_take,
                    readBytes_take 32 ua _ _ hua,
                    readBytes_take 32 mintB _ _ hm,
                    readU32_take _ _ _ hn, readU32_take _ _ _ hs,
                    readBytes_take nameB.length nameB _ _ rfl,
                    readBytes_take symbolB.length symbolB _ _ rfl,
                    c0, c1, c2, c3, c4, c5, c6]
                · by_cases c7 : k - 1 - 32 - 32 - 4 - nameB.length - 4
                      - symbolB.length < 4
                  · refine ⟨.structError, ?_, rfl⟩
                    simp [parseHeader, List.append_assoc,
                      List.singleton_append, List.cons_append, readByteIx_take,
                      readBytes_take 32 ua _ _ hua,
                      readBytes_take 32 mintB _ _ hm,
                      readU32_take _ _ _ hn, readU32_take _ _ _ hs,
                      readU32_take _ _ _ hu,
                      readBytes_take nameB.length nameB _ _ rfl,
                      readBytes_take symbolB.length symbolB _ _ rfl,
                      c0, c1, c2, c3, c4, c5, c6, c7]
                  · by_cases c8 : k - 1 - 32 - 32 - 4 - nameB.length - 4
                        - symbolB.length - 4 < uriB.length
                    · refine ⟨.structError, ?_, rfl⟩
                      simp [parseHeader, List.append_assoc,
                        List.singleton_append, List.cons_append,
                        readByteIx_take,
                        readBytes_take 32 ua _ _ hua,
                        readBytes_take 32 mintB _ _ hm,
                        readU32_take _ _ _ hn, readU32_take _ _ _ hs,
                        readU32_take _ _ _ hu,
                        readBytes_take nameB.length nameB _ _ rfl,
                        readBytes_take symbolB.length symbolB _ _ rfl,
                        readBytes_take uriB.length uriB _ _ rfl,
                        c0, c1, c2, c3, c4, c5, c6, c7, c8]
                    · have c9 : k - 1 - 32 - 32 - 4 - nameB.length - 4
                          - symbolB.length - 4 - uriB.length < 2 := by omega
                      refine ⟨.structError, ?_, rfl⟩
                      simp [parseHeader, List.append_assoc,
                        List.singleton_append, List.cons_append,
                        readByteIx_take,
                        readBytes_take 32 ua _ _ hua,
                        readBytes_take 32 mintB _ _ hm,
                        readU32_take _ _ _ hn, readU32_take _ _ _ hs,
                        readU32_take _ _ _ hu,
                        readBytes_take nameB.length nameB _ _ rfl,
                        readBytes_take symbolB.length symbolB _ _ rfl,
                        readBytes_take uriB.length uriB _ _ rfl,
                        readI16_take,
                        c0, c1, c2, c3, c4, c5, c6, c7, c8, c9]
  · intro hk
    have c0 : ¬k = 0 := by omega
    have c1 : ¬(k - 1 < 32) := by omega
    have c2 : ¬(k - 1 - 32 < 32) := by omega
    have c3 : ¬(k - 1 - 32 - 32 < 4) := by omega
    have c4 : ¬(k - 1 - 32 - 32 - 4 < nameB.length) := by omega
    have c5 : ¬(k - 1 - 32 - 32 - 4 - nameB.length < 4) := by omega
    have c6 : ¬(k - 1 - 32 - 32 - 4 - nameB.length - 4 < symbolB.length) := by
      omega
    have c7 : ¬(k - 1 - 32 - 32 - 4 - nameB.length - 4 - symbolB.length
        < 4) := by omega
    have c8 : ¬(k - 1 - 32 - 32 - 4 - nameB.length - 4 - symbolB.length - 4
        < uriB.length) := by omega
    have c9 : ¬(k - 1 - 32 - 32 - 4 - nameB.length - 4 - symbolB.length - 4
        - uriB.length < 2) := by omega
    have he : k - 1 - 32 - 32 - 4 - nameB.length - 4 - symbolB.length - 4
        - uriB.length - 2 =
        k - (79 + nameB.length + symbolB.length + uriB.length) := by omega
    simp [parseHeader, List.append_assoc, List.singleton_append,
      List.cons_append, readByteIx_take,
      readBytes_take 32 ua _ _ hua, readBytes_take 32 mintB _ _ hm,
      readU32_take _ _ _ hn, readU32_take _ _ _ hs, readU32_take _ _ _ hu,
      readBytes_take nameB.length nameB _ _ rfl,
      readBytes_take symbolB.length symbolB _ _ rfl,
      readBytes_take uriB.length uriB _ _ rfl,
      readI16_take, he,
      c0, c1, c2, c3, c4, c5, c6, c7, c8, c9]

theorem readByteIx_nil : readByteIx [] = .error .indexError := rfl

theorem readByteIx_cons (b : Nat) (r : List Nat) :
    readByteIx (b :: r) = .ok (b, r) := rfl

theorem parseCreatorsLoop_take (cs : List (List Nat × Nat × Nat))
    (rest : List Nat) (j : Nat) (h : ∀ c ∈ cs, c.1.length = 32) :
    (j < 34 * cs.length →
      ∃ e, parseCreatorsLoop cs.length
          (((cs.map encodeCreator).flatten ++ rest).take j) = .error e ∧
        DecodeError.truncClass e = true) ∧
    (34 * cs.length ≤ j →
      parseCreatorsLoop cs.length
          (((cs.map encodeCreator).flatten ++ rest).take j) =
        .ok (cs.map fun c => b58encode c.1, cs.map fun c => c.2.1,
          cs.map fun c => c.2.2, rest.take (j - 34 * cs.length))) := by
  induction cs generalizing j with
  | nil =>
    constructor
    · intro hj
      simp at hj
    · intro hj
      simp [parseCreatorsLoop]
  | cons c cs ih =>
    have hc1 : c.1.length = 32 := h c (List.mem_cons_self c cs)
    have hcs : ∀ x ∈ cs, x.1.length = 32 := fun x hx =>
      h x (List.mem_cons_of_mem c hx)
    constructor
    · intro hj
      by_cases d1 : j < 32
      · refine ⟨.structError, ?_, rfl⟩
        simp [parseCreatorsLoop, List.map_cons, List.flatten_cons,
          encodeCreator, List.append_assoc, List.cons_append,
          readBytes_take 32 c.1 _ _ hc1, d1]
      · by_cases d2 : j - 32 = 0
        · refine ⟨.indexError, ?_, rfl⟩
          simp [parseCreatorsLoop, List.map_cons, List.flatten_cons,
            encodeCreator, List.append_assoc, List.cons_append,
            readBytes_take 32 c.1 _ _ hc1, readByteIx_take, readByteIx_nil,
            d1, d2]
        · by_cases d3 : j - 32 - 1 = 0
          · refine ⟨.indexError, ?_, rfl⟩
            simp [parseCreatorsLoop, List.map_cons, List.flatten_cons,
              encodeCreator, List.append_assoc, List.cons_append,
              readBytes_take 32 c.1 _ _ hc1, readByteIx_take, readByteIx_nil,
              d1, d2, d3]
          · obtain ⟨e, he, ht⟩ := (ih (j - 32 - 1 - 1) hcs).1
              (by simp at hj ⊢; omega)
            refine ⟨e, ?_, ht⟩
            simp [parseCreatorsLoop, List.map_cons, List.flatten_cons,
              encodeCreator, List.append_assoc, List.cons_append,
              readBytes_take 32 c.1 _ _ hc1, readByteIx_take, d1, d2, d3, he]
    · intro hj
      simp only [List.length_cons] at hj
      have d1 : ¬(j < 32) := by omega
      have d2 : ¬(j - 32 = 0) := by omega
      have d3 : ¬(j - 32 - 1 = 0) := by omega
      have hrec := (ih (j - 32 - 1 - 1) hcs).2 (by omega)
      have he : j - 32 - 1 - 1 - 34 * cs.length = j - 34 * (cs.length + 1) :=
        by omega
      simp [parseCreatorsLoop, List.map_cons, List.flatten_cons,
        encodeCreator, List.append_assoc, List.cons_append,
        readBytes_take 32 c.1 _ _ hc1, readByteIx_take, d1, d2, d3, hrec, he]

theorem flatten_encodeCreator_length (cs : List (List Nat × Nat × Nat))
    (h : ∀ c ∈ cs, c.1.length = 32) :
    ((cs.map encodeCreator).flatten).length = 34 * cs.length := by
  induction cs with
  | nil => simp
  | cons c cs ih =>
    have hc1 : c.1.length = 32 := h c (List.mem_cons_self c cs)
    have hcs : ∀ x ∈ cs, x.1.length = 32 := fun x hx =>
      h x (List.mem_cons_of_mem c hx)
    simp [encodeCreator, ih hcs, hc1]
    omega

/-- C2: every strict prefix of a well-formed encoding — any truncation
strictly before the minimum length that the buffer's own declared
lengths require — makes decode fail with a truncation-class error
(Python `IndexError` or `struct.error`), and no record (partial or
otherwise) is returned (`truncFails` is `false` on every `ok` result by
definition). -/
theorem c2_truncation (ua mintB nameB symbolB uriB : List Nat)
    (fee0 fee1 hc : Nat) (cs : List (List Nat × Nat × Nat)) (psh im k : Nat)
    (hua : ua.length = 32) (hm : mintB.length = 32)
    (hn : nameB.length < 4294967296) (hs : symbolB.length < 4294967296)
    (hu : uriB.length < 4294967296)
    (hclen : cs.length < 4294967296) (hcs : ∀ c ∈ cs, c.1.length = 32)
    (hk : k < (encodeMeta ua mintB nameB symbolB uriB fee0 fee1 hc
      cs psh im).length) :
    truncFails (unpack_metadata_account
      ((encodeMeta ua mintB nameB symbolB uriB fee0 fee1 hc
        cs psh im).take k)) = true := by
  have hfull : encodeMeta ua mintB nameB symbolB uriB fee0 fee1 hc cs psh im =
      [4] ++ ua ++ mintB
        ++ u32bytes nameB.length ++ nameB
        ++ u32bytes symbolB.length ++ symbolB
        ++ u32bytes uriB.length ++ uriB
        ++ [fee0, fee1] ++ (encodeCreatorsBlock hc cs ++ [psh, im]) := by
    rw [encodeMeta, List.append_assoc]
  rw [hfull]
  by_cases hk1 : k < 79 + nameB.length + symbolB.length + uriB.length
  · obtain ⟨e, he, ht⟩ := (parseHeader_take ua mintB nameB symbolB uriB
      fee0 fee1 (encodeCreatorsBlock hc cs ++ [psh, im]) k
      hua hm hn hs hu).1 hk1
    simp only [List.append_assoc, List.singleton_append, List.cons_append,
      List.nil_append] at he ⊢
    unfold unpack_metadata_account
    rw [he]
    simp [truncFails, ht]
  · have hok := (parseHeader_take ua mintB nameB symbolB uriB
      fee0 fee1 (encodeCreatorsBlock hc cs ++ [psh, im]) k
      hua hm hn hs hu).2 (by omega)
    simp only [List.append_assoc, List.singleton_append, List.cons_append,
      List.nil_append] at hok ⊢
    by_cases h0 : hc = 0
    · subst h0
      have hlen : (encodeMeta ua mintB nameB symbolB uriB fee0 fee1 0
          cs psh im).length =
          79 + nameB.length + symbolB.length + uriB.length + 3 := by
        simp [encodeMeta, encodeCreatorsBlock, u32bytes]
        omega
      rw [hlen] at hk
      have hb0 : encodeCreatorsBlock 0 cs ++ [psh, im] = [0, psh, im] := by
        simp [encodeCreatorsBlock]
      rw [hb0] at hok ⊢
      by_cases e0 : k - (79 + nameB.length + symbolB.length + uriB.length)
          = 0
      · unfold unpack_metadata_account
        rw [hok]
        simp [truncFails, DecodeError.truncClass, readByteIx_nil, e0]
      · by_cases e1 : k - (79 + nameB.length + symbolB.length + uriB.length)
            = 1
        · unfold unpack_metadata_account
          rw [hok]
          simp [truncFails, DecodeError.truncClass, readByteIx, readByteIx_nil,
            e1]
        · have e2 : k - (79 + nameB.length + symbolB.length + uriB.length)
              = 2 := by omega
          unfold unpack_metadata_account
          rw [hok]
          simp [truncFails, DecodeError.truncClass, readByteIx, readByteIx_nil,
            e2]
    · have hlen : (encodeMeta ua mintB nameB symbolB uriB fee0 fee1 hc
          cs psh im).length =
          79 + nameB.length + symbolB.length + uriB.length + 7
            + 34 * cs.length := by
        simp [encodeMeta, encodeCreatorsBlock, u32bytes, h0,
          flatten_encodeCreator_length cs hcs]
        omega
      rw [hlen] at hk
      have hblock : encodeCreatorsBlock hc cs ++ [psh, im] =
          hc :: (u32bytes cs.length
            ++ ((cs.map encodeCreator).flatten ++ [psh, im])) := by
        simp [encodeCreatorsBlock, h0, List.append_assoc]
      rw [hblock] at hok ⊢
      by_cases e0 : k - (79 + nameB.length + symbolB.length + uriB.length)
          = 0
      · unfold unpack_metadata_account
        rw [hok]
        simp [truncFails, DecodeError.truncClass, readByteIx_take,
          readByteIx_nil, e0]
      · by_cases e1 : k - (79 + nameB.length + symbolB.length + uriB.length)
            - 1 < 4
        · unfold unpack_metadata_account
          rw [hok]
          simp [truncFails, DecodeError.truncClass, readByteIx_take,
            readU32_take _ _ _ hclen, h0, e0, e1]
        · by_cases e2 : k - (79 + nameB.length + symbolB.length
              + uriB.length) - 1 - 4 < 34 * cs.length
          · obtain ⟨e, he2, ht2⟩ := (parseCreatorsLoop_take cs [psh, im]
              (k - (79 + nameB.length + symbolB.length + uriB.length) - 1 - 4)
              hcs).1 e2
            unfold unpack_metadata_account
            rw [hok]
            simp [truncFails, readByteIx_take,
              readU32_take _ _ _ hclen, h0, e0, e1, he2, ht2]
          · have hrec := (parseCreatorsLoop_take cs [psh, im]
              (k - (79 + nameB.length + symbolB.length + uriB.length) - 1 - 4)
              hcs).2 (by omega)
            by_cases e3 : k - (79 + nameB.length + symbolB.length
                + uriB.length) - 1 - 4 - 34 * cs.length = 0
            · unfold unpack_metadata_account
              rw [hok]
              simp [truncFails, DecodeError.truncClass, readByteIx_take,
                readByteIx_nil, readU32_take _ _ _ hclen, h0, e0, e1, hrec, e3]
            · have e4 : k - (79 + nameB.length + symbolB.length
                  + uriB.length) - 1 - 4 - 34 * cs.length = 1 := by omega
              unfold unpack_metadata_account
              rw [hok]
              simp [truncFails, DecodeError.truncClass, readByteIx_take,
                readByteIx_nil, readByteIx_cons, readU32_take _ _ _ hclen,
                h0, e0, e1, hrec, e4]

theorem c2_truncation_witness :
    truncFails (unpack_metadata_account
      ((encodeMeta (List.replicate 32 0) (List.replicate 32 0)
        [] [] [] 0 0 0 [] 0 0).take 81)) = true :=
  c2_truncation (List.replicate 32 0) (List.replicate 32 0) [] [] []
    0 0 0 [] 0 0 81
    (by decide) (by decide) (by decide) (by decide) (by decide) (by decide)
    (by simp) (by decide)
